import Mathlib

/-!
# Verification of the Georgia Power rate-plan analyzer (`src/web/script.js`)

This file shallowly embeds the tariff-costing pipeline of `script.js` in Lean:

* JavaScript `Date` values (which the script always constructs with minute
  resolution and never converts across time zones) are modelled as integers
  counting minutes since the local epoch 1970-01-01 00:00, together with the
  standard proleptic-Gregorian civil-date conversions that back the `Date`
  accessors `getFullYear`, `getMonth`, `getDate`, `getHours`, `getMinutes`
  and `getDay`.
* JavaScript floating-point numbers are modelled as exact rationals.
* `Array.prototype.sort` with an ascending comparator (a stable sort in
  modern engines) is modelled by `List.insertionSort`, which is stable.
* JS `Set`s (insertion ordered) are modelled by duplicate-free lists built
  with insert-if-absent, and JS objects used as string-keyed maps (insertion
  ordered) by association lists with append-if-absent updates; the string
  keys `"YYYY-MM"`, `"YYYY-MM-DD"` and `` `${y}-${m}-${d}` `` are replaced
  by the integer tuples they injectively encode.

Definitions follow the source line by line; theorems at the end of the file
settle the specification claims.
-/

namespace GaPower

/-! ## Civil-date arithmetic backing the JS `Date` accessors

The conversions between a day number (days since 1970-01-01) and a civil
Gregorian date `(year, month, day)` use the standard era-based algorithm.
All divisions are floor divisions (`Int.fdiv` / `Int.emod`). -/

/-- Days since 1970-01-01 of the civil Gregorian date `(y, m, d)` with `m`
1-based.  Linear in `d`, so out-of-range day components roll over exactly as
JavaScript `MakeDay` does. -/
def daysFromCivil (y m d : ℤ) : ℤ :=
  let y2 := if m ≤ 2 then y - 1 else y
  let era := y2.fdiv 400
  let yoe := y2 - era * 400
  let mp := if 2 < m then m - 3 else m + 9
  let doy := (153 * mp + 2).fdiv 5 + d - 1
  let doe := yoe * 365 + yoe.fdiv 4 - yoe.fdiv 100 + doy
  era * 146097 + doe - 719468

/-- Civil Gregorian date `(year, month, day)` (month 1-based) of a day
number (days since 1970-01-01). -/
def civilFromDays (z : ℤ) : ℤ × ℤ × ℤ :=
  let z2 := z + 719468
  let era := z2.fdiv 146097
  let doe := z2 - era * 146097
  let yoe := (doe - doe.fdiv 1460 + doe.fdiv 36524 - doe.fdiv 146096).fdiv 365
  let y := yoe + era * 400
  let doy := doe - (365 * yoe + yoe.fdiv 4 - yoe.fdiv 100)
  let mp := (5 * doy + 2).fdiv 153
  let d := doy - (153 * mp + 2).fdiv 5 + 1
  let m := if mp < 10 then mp + 3 else mp - 9
  (if m ≤ 2 then y + 1 else y, m, d)

/-- A JS `Date` instant at the script's resolution: minutes since the local
epoch 1970-01-01 00:00.  The script only ever builds dates with zero seconds
and milliseconds. -/
abbrev DateMin := ℤ

/-- Day number (days since 1970-01-01) containing the instant `t`. -/
def dayNumber (t : DateMin) : ℤ := t.fdiv 1440

/-- Model of `Date.prototype.getFullYear` (local time). -/
def getFullYear (t : DateMin) : ℤ := (civilFromDays (dayNumber t)).1

/-- Model of `Date.prototype.getMonth` (local time, 0-based like JS). -/
def getMonth (t : DateMin) : ℤ := (civilFromDays (dayNumber t)).2.1 - 1

/-- Model of `Date.prototype.getDate` (local time, day of month 1..31). -/
def getDate (t : DateMin) : ℤ := (civilFromDays (dayNumber t)).2.2

/-- Model of `Date.prototype.getHours` (local time, 0..23). -/
def getHours (t : DateMin) : ℤ := (t.emod 1440).fdiv 60

/-- Model of `Date.prototype.getMinutes` (0..59). -/
def getMinutes (t : DateMin) : ℤ := t.emod 60

/-- Model of `Date.prototype.getDay`: day of week, 0 = Sunday .. 6 = Saturday
(1970-01-01 was a Thursday, day number 4). -/
def getDay (t : DateMin) : ℤ := (dayNumber t + 4).emod 7

/-- Model of the JS constructor `new Date(y, m0, d, hr, min)` with integer
(finite) arguments: `m0` is 0-based and all out-of-range components roll
over, exactly as in `MakeDay`/`MakeTime`; a year argument in `0..99` is
interpreted as `1900 + y`. -/
def mkDate (y m0 d hr min : ℤ) : DateMin :=
  let y1 := if 0 ≤ y ∧ y ≤ 99 then y + 1900 else y
  let ya := y1 + m0.fdiv 12
  let ma := m0.emod 12
  daysFromCivil ya (ma + 1) d * 1440 + hr * 60 + min

/-! ## Period classifiers (`isOnPeak`, `getTouOaPeriod`) -/

/-- Model of `isOnPeak` from `src/web/script.js`: weekday (Mon=1..Fri=5),
summer month (Jun..Sep) and local hour in `[14,19)`. -/
def isOnPeak (dt : DateMin) : Bool :=
  let month := getMonth dt + 1
  let hour := getHours dt
  let day := getDay dt
  let isWeekday := 1 ≤ day ∧ day ≤ 5
  let isSummer := 6 ≤ month ∧ month ≤ 9
  let isPeakHour := 14 ≤ hour ∧ hour < 19
  isWeekday ∧ isSummer ∧ isPeakHour

/-- Model of `getTouOaPeriod` from `src/web/script.js`; returns the same
string literals the source uses. -/
def getTouOaPeriod (dt : DateMin) : String :=
  if isOnPeak dt then "on_peak"
  else if 23 ≤ getHours dt ∨ getHours dt < 7 then "super_off_peak"
  else "off_peak"

/-! ## Row parsing (`parseDate` and the record loop of `processData`) -/

/-- A JS `Date` as returned to the record loop: either a valid instant or the
*Invalid Date* object (internal time value `NaN`).  Note that in JavaScript an
Invalid Date object is still truthy. -/
inductive JSDate where
  | invalid : JSDate
  | valid : DateMin → JSDate
deriving DecidableEq, Repr

/-- Splitting a character list at every occurrence of `sep`: the character
content of JS `String.prototype.split` with a one-character separator (the
empty string yields one empty part; adjacent separators yield empty parts). -/
def splitOnChar (sep : Char) : List Char → List (List Char)
  | [] => [[]]
  | c :: rest =>
    let r := splitOnChar sep rest
    if c = sep then [] :: r
    else (c :: r.headI) :: r.tail

/-- The value of a non-empty all-digit character list; `none` otherwise. -/
def digitsToNat (l : List Char) : Option ℕ :=
  if l = [] then none
  else if l.all (fun c => c.isDigit) then
    some (l.foldl (fun n c => 10 * n + (c.toNat - 48)) 0)
  else none

/-- Model of the JavaScript `Number(s)` string conversion on the character
shapes that can reach the date parser: the empty string converts to `0`, an
optional minus sign followed by decimal digits converts to the signed integer
value, and any other string — in particular all non-numeric text appearing in
the theorems below — converts to `NaN`, modelled as `none`.  (Fractional,
exponential, hexadecimal and whitespace-padded numerals, which `Number` also
accepts, do not occur in any input considered in this file.) -/
def jsNumberChars (l : List Char) : Option ℤ :=
  if l = [] then some 0
  else
    match digitsToNat l with
    | some n => some (n : ℤ)
    | none =>
      match l with
      | c :: rest =>
        if c = '-' then
          match digitsToNat rest with
          | some n => some (-(n : ℤ))
          | none => none
        else none
      | [] => none

/-- `Number(s)` on a string, via its character list. -/
def jsNumber (s : String) : Option ℤ := jsNumberChars s.toList

/-- Model of `new Date(y, m0, d, hr, min)` where each argument is a JS number
that may be `NaN`/`undefined` (`none`): any `NaN` component yields an Invalid
Date, otherwise the components roll over per `mkDate`. -/
def jsNewDate (y m0 d hr min : Option ℤ) : JSDate :=
  match y, m0, d, hr, min with
  | some y, some m0, some d, some hr, some min => JSDate.valid (mkDate y m0 d hr min)
  | _, _, _, _, _ => JSDate.invalid

/-- Model of `parseDate` from `src/web/script.js`.  Splits on a single space;
returns `none` (JS `null`) when the date or time part is missing or empty;
otherwise splits the parts on `-` and `:`, converts the pieces with `Number`
(missing pieces are `undefined`, hence `NaN`), and returns the constructed
`Date` — which is an Invalid Date, not `null`, when any component is `NaN`. -/
def parseDate (str : String) : Option JSDate :=
  match splitOnChar ' ' str.toList with
  | datePart :: timePart :: _ =>
    if datePart = [] ∨ timePart = [] then none
    else
      let dparts := (splitOnChar '-' datePart).map jsNumberChars
      let tparts := (splitOnChar ':' timePart).map jsNumberChars
      let y := dparts.getD 0 none
      let m := dparts.getD 1 none
      let d := dparts.getD 2 none
      let hr := tparts.getD 0 none
      let min := tparts.getD 1 none
      some (jsNewDate y (m.map (· - 1)) d hr min)
  | _ => none

/-- A spreadsheet cell as delivered by the parsing collaborator: a (finite)
number, a string, or an empty/missing cell (JS `undefined`/`null`). -/
inductive Cell where
  | num : ℚ → Cell
  | str : String → Cell
  | empty : Cell
deriving DecidableEq, Repr

/-- A raw spreadsheet row: a variable-length list of cells. -/
abbrev Row := List Cell

/-- Model of `parseFloat` applied to a cell value on the shapes that occur in
this file: a numeric cell parses to its exact value, a string cell to the
integer it spells (optional sign and decimal digits; other strings, which
`parseFloat` would scan for a leading numeral, do not occur in the inputs
considered here and are mapped to `NaN`), and an empty cell to `NaN`
(`parseFloat(undefined)` is `NaN`). -/
def jsParseFloat (c : Cell) : Option ℚ :=
  match c with
  | Cell.num q => some q
  | Cell.str s =>
    match jsNumber s with
    | some n => if s = "" then none else some (n : ℚ)
    | none => none
  | Cell.empty => none

/-- Model of the Excel-serial branch of the record loop:
`new Date((serial - 25569) * 86400 * 1000)` followed by re-interpreting the
UTC civil fields (down to minutes) as local wall-clock time.  In this
timezone-free model the composite is exactly the epoch shift truncated to
whole minutes. -/
def excelSerialToDate (serial : ℚ) : DateMin := ⌊(serial - 25569) * 1440⌋

/-- One parsed record of the record loop: the constructed `Date` (possibly
Invalid) and the usage in kWh. -/
structure RawRec where
  dt : JSDate
  kwh : ℚ
deriving DecidableEq, Repr

/-- Model of one iteration of the record loop in `processData`
(`src/web/script.js`, lines 97–124), given the two column indices found by
header detection: skip the row if it is too short, its timestamp cell is
missing, its usage cell does not parse, or the usage is ≤ 0.001; otherwise
build the `Date` from the Excel serial (numeric cell) or via `parseDate`
(string cell), and keep the record whenever the result is non-`null` — an
Invalid Date is truthy and is kept. -/
def parseRow (tsIdx kwhIdx : ℕ) (row : Row) : Option RawRec :=
  if row.length ≤ max tsIdx kwhIdx then none
  else
    let tcell := row.getD tsIdx Cell.empty
    if tcell = Cell.empty then none
    else
      match jsParseFloat (row.getD kwhIdx Cell.empty) with
      | none => none
      | some kwh =>
        if kwh ≤ 1/1000 then none
        else
          match tcell with
          | Cell.num serial => some ⟨JSDate.valid (excelSerialToDate serial), kwh⟩
          | Cell.str s => (parseDate s).map (fun d => ⟨d, kwh⟩)
          | Cell.empty => none

/-- Model of the whole record loop: the records collected from the data rows
(the rows after the detected header row), in order. -/
def buildRecords (tsIdx kwhIdx : ℕ) (rows : List Row) : List RawRec :=
  rows.filterMap (parseRow tsIdx kwhIdx)

/-! ## The costing pipeline (`processData` date-range logic, `calculateCosts`) -/

/-- A validly parsed observation: instant (minutes) and usage (kWh). -/
structure Rec where
  dt : DateMin
  kwh : ℚ
deriving DecidableEq, Repr

/-- `FCR_SUMMER` constant of `calculateCosts` ($/kWh, months Jun–Sep). -/
def FCR_SUMMER : ℚ := 0.045876

/-- `FCR_WINTER` constant of `calculateCosts` ($/kWh, months Oct–May). -/
def FCR_WINTER : ℚ := 0.042859

/-- `TAX_RATE` constant of `calculateCosts` (composite tax/fee multiplier). -/
def TAX_RATE : ℚ := 1.12

/-- One `monthlyUsage` bucket: total kWh, the set of day keys seen (a JS
`Set`, modelled as an insertion-ordered duplicate-free list), and the largest
single-interval kWh reading. -/
structure MonthAgg where
  total : ℚ
  days : List (ℤ × ℤ × ℤ)
  maxDemand : ℚ
deriving DecidableEq, Repr

/-- JS `Set.prototype.add`: append if absent. -/
def setInsert {α : Type} [DecidableEq α] (x : α) (l : List α) : List α :=
  if x ∈ l then l else l ++ [x]

/-- Fold one observation into a `monthlyUsage` bucket: `total += kwh`,
`days.add(dayKey)`, `if (kwh > maxDemand) maxDemand = kwh`. -/
def addObs (b : MonthAgg) (dayKey : ℤ × ℤ × ℤ) (kwh : ℚ) : MonthAgg :=
  { total := b.total + kwh
    days := setInsert dayKey b.days
    maxDemand := if b.maxDemand < kwh then kwh else b.maxDemand }

/-- A fresh `monthlyUsage` bucket (`{ total: 0, days: new Set(), maxDemand: 0 }`). -/
def emptyMonthAgg : MonthAgg := ⟨0, [], 0⟩

/-- Update the insertion-ordered `monthlyUsage` map at `key` (create the
bucket on first sight, in insertion order, as a JS object with string keys
does). -/
def bumpMonth (monthly : List ((ℤ × ℤ) × MonthAgg)) (key : ℤ × ℤ)
    (dayKey : ℤ × ℤ × ℤ) (kwh : ℚ) : List ((ℤ × ℤ) × MonthAgg) :=
  match monthly with
  | [] => [(key, addObs emptyMonthAgg dayKey kwh)]
  | (k, b) :: rest =>
    if k = key then (k, addObs b dayKey kwh) :: rest
    else (k, b) :: bumpMonth rest key dayKey kwh

/-- The accumulators of the main `records.forEach` loop of `calculateCosts`:
the five time-of-use energy buckets, the fuel-cost-recovery total, and the
`monthlyUsage` map keyed by `(year, 1-based month)` (the integer content of
the `"YYYY-MM"` string key). -/
structure Aggregates where
  reoOn : ℚ
  reoOff : ℚ
  oaOn : ℚ
  oaOff : ℚ
  oaSuper : ℚ
  fcr : ℚ
  monthly : List ((ℤ × ℤ) × MonthAgg)
deriving Repr

/-- All accumulators start at zero/empty. -/
def initAggregates : Aggregates := ⟨0, 0, 0, 0, 0, 0, []⟩

/-- One iteration of the `records.forEach` loop of `calculateCosts`
(`src/web/script.js`, lines 209–243). -/
def aggStep (a : Aggregates) (r : Rec) : Aggregates :=
  let month := getMonth r.dt + 1
  let monthKey : ℤ × ℤ := (getFullYear r.dt, month)
  let dayKey : ℤ × ℤ × ℤ := (getFullYear r.dt, month, getDate r.dt)
  let isSummer := 6 ≤ month ∧ month ≤ 9
  let fcrCost := r.kwh * (if isSummer then FCR_SUMMER else FCR_WINTER)
  let oaPeriod := getTouOaPeriod r.dt
  { reoOn := a.reoOn + (if isOnPeak r.dt then r.kwh else 0)
    reoOff := a.reoOff + (if isOnPeak r.dt then 0 else r.kwh)
    oaOn := a.oaOn + (if oaPeriod = "on_peak" then r.kwh else 0)
    oaOff := a.oaOff +
      (if oaPeriod = "on_peak" ∨ oaPeriod = "super_off_peak" then 0 else r.kwh)
    oaSuper := a.oaSuper + (if oaPeriod = "super_off_peak" then r.kwh else 0)
    fcr := a.fcr + fcrCost
    monthly := bumpMonth a.monthly monthKey dayKey r.kwh }

/-- The aggregates after the main loop. -/
def buildAggregates (records : List Rec) : Aggregates :=
  records.foldl aggStep initAggregates

/-- The `allDays` set of the billing-days loop: day keys
`` `${getFullYear()}-${getMonth()}-${getDate()}` `` (note the 0-based month),
in insertion order. -/
def allDaysList (records : List Rec) : List (ℤ × ℤ × ℤ) :=
  records.foldl
    (fun s r => setInsert (getFullYear r.dt, getMonth r.dt, getDate r.dt) s) []

/-- `billingDays = allDays.size`. -/
def billingDays (records : List Rec) : ℕ := (allDaysList records).length

/-- The R-30 per-month energy charge: summer months use the 650/1000 kWh
tier boundaries with three increasing rates, other months a flat rate. -/
def r30EnergyCost (month : ℤ) (usage : ℚ) : ℚ :=
  if 6 ≤ month ∧ month ≤ 9 then
    let tier1 := min usage 650
    let tier2 := if 650 < usage then min (usage - 650) 350 else 0
    let tier3 := if 1000 < usage then usage - 1000 else 0
    tier1 * 0.086121 + tier2 * 0.143047 + tier3 * 0.148051
  else usage * 0.080602

/-- One tariff's breakdown as handed to `displayResults`; `demand` is present
only for TOU-RD. -/
structure Breakdown where
  fixed : ℚ
  energy : ℚ
  demand : Option ℚ
  fcr : ℚ
  tax : ℚ
  total : ℚ
deriving Repr

/-- The result object of `calculateCosts`: the four breakdowns plus the
stats fields the claims refer to. -/
structure CostResults where
  tou_reo : Breakdown
  tou_oa : Breakdown
  tou_rd : Breakdown
  r30 : Breakdown
  totalUsage : ℚ
  duration : ℚ
  note : String
deriving Repr

/-- Model of `calculateCosts` from `src/web/script.js` (lines 190–310).  The
`forEach` accumulations over `Object.values`/`Object.keys` of `monthlyUsage`
are written as sums over the insertion-ordered association list. -/
def calculateCosts (records : List Rec) (durationDays : ℚ) (note : String) :
    CostResults :=
  let a := buildAggregates records
  let bd : ℚ := (billingDays records : ℚ)
  let tou_reo_fixed := 0.4603 * bd
  let tou_reo_energy := a.reoOn * 0.297868 + a.reoOff * 0.076281
  let tou_reo_total := (tou_reo_fixed + tou_reo_energy + a.fcr) * TAX_RATE
  let tou_oa_fixed := 0.4603 * bd
  let tou_oa_energy :=
    a.oaOn * 0.297868 + a.oaOff * 0.101676 + a.oaSuper * 0.021859
  let tou_oa_total := (tou_oa_fixed + tou_oa_energy + a.fcr) * TAX_RATE
  let tou_rd_fixed := 0.4603 * bd
  let tou_rd_energy := a.reoOn * 0.142986 + a.reoOff * 0.015288
  let total_demand := (a.monthly.map (fun p => p.2.maxDemand * (12.21 : ℚ))).sum
  let tou_rd_total :=
    (tou_rd_fixed + tou_rd_energy + total_demand + a.fcr) * TAX_RATE
  let r30_base := (a.monthly.map
    (fun p => 0.4603 * (p.2.days.length : ℚ) + r30EnergyCost p.1.2 p.2.total)).sum
  let r30_total := (r30_base + a.fcr) * TAX_RATE
  { tou_reo := ⟨tou_reo_fixed, tou_reo_energy, none, a.fcr,
      tou_reo_total - (tou_reo_fixed + tou_reo_energy + a.fcr), tou_reo_total⟩
    tou_oa := ⟨tou_oa_fixed, tou_oa_energy, none, a.fcr,
      tou_oa_total - (tou_oa_fixed + tou_oa_energy + a.fcr), tou_oa_total⟩
    tou_rd := ⟨tou_rd_fixed, tou_rd_energy, some total_demand, a.fcr,
      tou_rd_total - (tou_rd_fixed + tou_rd_energy + total_demand + a.fcr),
      tou_rd_total⟩
    r30 := ⟨0.4603 * bd, r30_base - 0.4603 * bd, none, a.fcr,
      r30_total - (r30_base + a.fcr), r30_total⟩
    totalUsage := (records.map Rec.kwh).sum
    duration := durationDays
    note := note }

/-! ## Date-range logic of `processData` (lines 130–179) -/

/-- The terminal errors of the normalizer.  `insufficientData` carries the
computed day count. -/
inductive PipelineError where
  | noValidRecords : PipelineError
  | insufficientData : ℚ → PipelineError
deriving DecidableEq, Repr

/-- Model of `records.sort((a, b) => a.dt - b.dt)`: a stable ascending sort
by timestamp (`Array.prototype.sort` is stable; `List.insertionSort` is the
stable sort used throughout this file). -/
def sortRecords (records : List Rec) : List Rec :=
  List.insertionSort (fun a b => a.dt ≤ b.dt) records

/-- The span in days between the first and last record of a (sorted) list;
`(endDt - startDt) / (1000*60*60*24)` in ms is `(endDt - startDt) / 1440` in
minutes. -/
def spanDays (sorted : List Rec) : ℚ :=
  let startDt := (sorted.head?.getD ⟨0, 0⟩).dt
  let endDt := (sorted.getLast?.getD ⟨0, 0⟩).dt
  ((endDt - startDt : ℤ) : ℚ) / 1440

/-- The window-truncation step: when the span reaches 365 days, keep only the
records at or after `endDt − floor(span/365)·365` days. -/
def truncateRecords (sorted : List Rec) (durationDays : ℚ) : List Rec :=
  if 365 ≤ durationDays then
    let fullYears : ℤ := ⌊durationDays / 365⌋
    let targetDays : ℤ := fullYears * 365
    let endDt := (sorted.getLast?.getD ⟨0, 0⟩).dt
    let cutoff := endDt - targetDays * 1440
    sorted.filter (fun r => cutoff ≤ r.dt)
  else sorted

/-- The informational note attached when truncating to full years. -/
def fullYearsNote (fullYears : ℤ) : String :=
  s!"Using most recent {fullYears} full year(s) of data for accurate seasonal comparison."

/-- The warning note attached when less than a year of data is present. -/
def partialYearNote : String :=
  "Less than 1 year of data. Seasonal variations may affect accuracy."

/-- Model of the date-range portion of `processData` (lines 126–179), from
the collected records to either a terminal error or the costing results: the
empty check, the stable sort, the 30-day minimum-span check (whose failure
carries the computed day count), the full-year truncation, the re-derived
effective duration, and the call to `calculateCosts`.  (The gap scan of
lines 164–176 only counts diagnostics and affects no output.) -/
def processRecords (records : List Rec) : Except PipelineError CostResults :=
  if records.isEmpty then Except.error PipelineError.noValidRecords
  else
    let sorted := sortRecords records
    let durationDays := spanDays sorted
    if durationDays < 30 then
      Except.error (PipelineError.insufficientData durationDays)
    else
      let used := truncateRecords sorted durationDays
      let note := if 365 ≤ durationDays then fullYearsNote ⌊durationDays / 365⌋
        else partialYearNote
      Except.ok (calculateCosts used (spanDays used) note)

/-! ## Plan comparison (`displayResults`, lines 334–367) -/

/-- Model of the ranking-and-savings portion of `displayResults`: build the
plan list in source order, stably sort ascending by total, recommend the
head, and report `savings = r30Cost − best.cost` (the DOM rendering around
this logic is outside the model). -/
def displayResults (res : CostResults) : (String × ℚ) × ℚ :=
  let plans := [("tou-reo", res.tou_reo.total), ("tou-oa", res.tou_oa.total),
    ("tou-rd", res.tou_rd.total), ("r30", res.r30.total)]
  let sorted := List.insertionSort (fun a b => a.2 ≤ b.2) plans
  let best := sorted.headI
  let r30Cost := ((sorted.find? (fun p => p.1 = "r30")).map Prod.snd).getD 0
  let savings := r30Cost - best.2
  (best, savings)

/-! ## Derived predicates and relations used by the verification -/

/-- The residual-tax round-trip property of one breakdown: the total is the
taxed sum of the components, the tax is the residual, and components plus
tax reproduce the total exactly. -/
def taxRoundTrip (b : Breakdown) : Prop :=
  b.total = (b.fixed + b.energy + b.demand.getD 0 + b.fcr) * TAX_RATE ∧
  b.tax = b.total - (b.fixed + b.energy + b.demand.getD 0 + b.fcr) ∧
  b.fixed + b.energy + b.demand.getD 0 + b.fcr + b.tax = b.total

/-- The first-listed plan (in the source order TOU-REO, TOU-OA, TOU-RD,
R-30) whose total is minimal among the four: the recommendation a stable
ascending sort produces, ties going to the earlier-listed plan. -/
def firstListedMin (reo oa rd r30 : ℚ) : String × ℚ :=
  if reo ≤ oa ∧ reo ≤ rd ∧ reo ≤ r30 then ("tou-reo", reo)
  else if oa ≤ rd ∧ oa ≤ r30 then ("tou-oa", oa)
  else if rd ≤ r30 then ("tou-rd", rd)
  else ("r30", r30)

/-- The `monthlyUsage` key of an observation: `(year, 1-based month)`. -/
def monthKeyOf (r : Rec) : ℤ × ℤ := (getFullYear r.dt, getMonth r.dt + 1)

/-- The per-month day key of an observation (1-based month, as in the
`"YYYY-MM-DD"` string). -/
def dayKeyOf (r : Rec) : ℤ × ℤ × ℤ :=
  (getFullYear r.dt, getMonth r.dt + 1, getDate r.dt)

/-- The whole-series day key of an observation (0-based month, as in the
`` `${y}-${getMonth()}-${getDate()}` `` string of the billing-days loop). -/
def allDayKeyOf (r : Rec) : ℤ × ℤ × ℤ :=
  (getFullYear r.dt, getMonth r.dt, getDate r.dt)

/-- Correspondence between the whole-series `allDays` set and the per-month
`days` sets of the `monthlyUsage` map: same day count in total, matching
membership (the whole-series key has the 0-based month, the per-month key
the 1-based month), duplicate-free month keys, and every stored day key
tagged with its bucket's key. -/
def DaysInv (s : List (ℤ × ℤ × ℤ)) (m : List ((ℤ × ℤ) × MonthAgg)) : Prop :=
  s.length = (m.map (fun p => p.2.days.length)).sum ∧
  (∀ y mo d, (y, mo, d) ∈ s ↔
    ∃ b, ((y, mo + 1), b) ∈ m ∧ (y, mo + 1, d) ∈ b.days) ∧
  (m.map Prod.fst).Nodup ∧
  (∀ p ∈ m, ∀ dk ∈ p.2.days, dk.1 = p.1.1 ∧ dk.2.1 = p.1.2)

/-- Pointwise relation between two `monthlyUsage` entries built from series
that agree on all timestamps and are pointwise ≤ on usage: same key, same
day set, and ≤ on the accumulated usage and peak demand. -/
def MonthRel (p q : (ℤ × ℤ) × MonthAgg) : Prop :=
  p.1 = q.1 ∧ p.2.days = q.2.days ∧ p.2.total ≤ q.2.total ∧
  p.2.maxDemand ≤ q.2.maxDemand

/-- Simulation relation between the aggregate states of two runs whose
series agree on timestamps and are pointwise ≤ on usage. -/
def AggRel (a b : Aggregates) : Prop :=
  a.reoOn ≤ b.reoOn ∧ a.reoOff ≤ b.reoOff ∧ a.oaOn ≤ b.oaOn ∧
  a.oaOff ≤ b.oaOff ∧ a.oaSuper ≤ b.oaSuper ∧ a.fcr ≤ b.fcr ∧
  List.Forall₂ MonthRel a.monthly b.monthly

/-! ## Sample inputs used to witness the hypotheses of the theorems -/

/-- 2025-01-01 00:00, the end instant of the 400-day truncation scenario. -/
def sampleEnd : DateMin := mkDate 2025 0 1 0 0

/-- A sorted series spanning 400 days and ending 2025-01-01 00:00:
observations 400, 366, 365, 100 and 0 days before the end. -/
def truncSample : List Rec :=
  [⟨sampleEnd - 400 * 1440, 1⟩, ⟨sampleEnd - 366 * 1440, 1⟩,
   ⟨sampleEnd - 365 * 1440, 1⟩, ⟨sampleEnd - 100 * 1440, 1⟩, ⟨sampleEnd, 1⟩]

/-- A two-observation series spanning exactly 3 days. -/
def shortSample : List Rec := [⟨0, 1⟩, ⟨4320, 1⟩]

/-- A one-row sheet whose single data row parses to a valid observation. -/
def goodRow : Row := [Cell.str "2025-02-19 23:00", Cell.num 2]

/-- A data row whose usage cell parses to 0.0005 kWh. -/
def nearZeroRow : Row := [Cell.str "2025-02-19 22:00", Cell.num (5 / 10000)]

/-- A concrete result object (only the totals matter to the comparator) in
which the standard R-30 plan is the cheapest. -/
def sampleResults : CostResults :=
  { tou_reo := ⟨0, 0, none, 0, 0, 4⟩
    tou_oa := ⟨0, 0, none, 0, 0, 3⟩
    tou_rd := ⟨0, 0, none, 0, 0, 5⟩
    r30 := ⟨0, 0, none, 0, 0, 2⟩
    totalUsage := 0
    duration := 0
    note := "" }

/-! ## Theorems -/

/-- C1: for every tariff breakdown produced from valid aggregates, the
reported total equals (fixed + energy + demand where present + fuel rider)
times the tax multiplier 1.12, and the reported tax charge is the residual
total minus those components, so components plus tax round-trip exactly to
the total for all four tariffs. -/
theorem tax_roundtrip_all_tariffs (records : List Rec) (d : ℚ) (note : String) :
    taxRoundTrip (calculateCosts records d note).tou_reo ∧
    taxRoundTrip (calculateCosts records d note).tou_oa ∧
    taxRoundTrip (calculateCosts records d note).tou_rd ∧
    taxRoundTrip (calculateCosts records d note).r30 := by
  refine ⟨⟨?_, ?_, ?_⟩, ⟨?_, ?_, ?_⟩, ⟨?_, ?_, ?_⟩, ⟨?_, ?_, ?_⟩⟩ <;>
    simp only [calculateCosts, Option.getD_none, Option.getD_some] <;> ring

/-- C5: the on-peak classifier holds exactly on weekdays (`getDay` between
1 = Monday and 5 = Friday), in months June through September, at local hours
in `[14, 19)`; concretely, on Tuesday 2025-07-08 the instants 13:59 and
19:00 are off-peak while 14:00 and 18:59 are on-peak. -/
theorem isOnPeak_characterization :
    (∀ t : DateMin, isOnPeak t = true ↔
      ((1 ≤ getDay t ∧ getDay t ≤ 5) ∧
       (6 ≤ getMonth t + 1 ∧ getMonth t + 1 ≤ 9) ∧
       (14 ≤ getHours t ∧ getHours t < 19))) ∧
    getDay (mkDate 2025 6 8 0 0) = 2 ∧
    isOnPeak (mkDate 2025 6 8 13 59) = false ∧
    isOnPeak (mkDate 2025 6 8 14 0) = true ∧
    isOnPeak (mkDate 2025 6 8 18 59) = true ∧
    isOnPeak (mkDate 2025 6 8 19 0) = false := by
  refine ⟨fun t => ?_, by decide, by decide, by decide, by decide, by decide⟩
  simp [isOnPeak]

/-- C6: the three-period classifier assigns every instant exactly one of the
three periods, with on-peak taking priority, super-off-peak exactly when the
instant is not on-peak and its local hour is ≥ 23 or < 7, and off-peak in
all remaining cases. -/
theorem getTouOaPeriod_characterization (t : DateMin) :
    (getTouOaPeriod t = "on_peak" ∨ getTouOaPeriod t = "super_off_peak" ∨
      getTouOaPeriod t = "off_peak") ∧
    (getTouOaPeriod t = "on_peak" ↔ isOnPeak t = true) ∧
    (getTouOaPeriod t = "super_off_peak" ↔
      (isOnPeak t = false ∧ (23 ≤ getHours t ∨ getHours t < 7))) ∧
    (getTouOaPeriod t = "off_peak" ↔
      (isOnPeak t = false ∧ ¬(23 ≤ getHours t ∨ getHours t < 7))) := by
  unfold getTouOaPeriod
  rcases h : isOnPeak t with _ | _
  · split_ifs with h2 <;> simp_all
  · simp_all

/-- C2 (code behavior at the failing input): a data row whose timestamp cell
is the string `"bogus timestamp"` — neither a numeric serial nor of the
pattern `YYYY-MM-DD HH:MM` — is *not* dropped: because a JavaScript Invalid
Date is truthy, the record loop keeps it as an observation whose date is
Invalid (internal time `NaN`). -/
theorem invalid_date_row_is_kept :
    parseRow 0 1 [Cell.str "bogus timestamp", Cell.num 2] =
      some ⟨JSDate.invalid, 2⟩ := by
  have hpd : parseDate "bogus timestamp" = some JSDate.invalid := by decide
  simp only [parseRow, List.getD, List.get?, Option.getD]
  norm_num [hpd, jsParseFloat]
  intro h
  simp at h

/-- Any record the row loop keeps has usage strictly above 0.001. -/
theorem parseRow_kwh_gt {ts kw : ℕ} {row : Row} {r : RawRec}
    (h : parseRow ts kw row = some r) : 1 / 1000 < r.kwh := by
  simp only [parseRow] at h
  split at h
  · exact absurd h (by simp)
  · split at h
    · exact absurd h (by simp)
    · split at h
      · exact absurd h (by simp)
      · rename_i kwh hk
        split at h
        · exact absurd h (by simp)
        · rename_i hle
          split at h
          · cases h
            simpa using lt_of_not_le hle
          · rcases Option.map_eq_some'.mp h with ⟨jd, hjd, rfl⟩
            simpa using lt_of_not_le hle
          · exact absurd h (by simp)

/-- A row whose parsed usage is at most 0.001 is skipped by the row loop. -/
theorem parseRow_low_usage_none {ts kw : ℕ} {row : Row} {k : ℚ}
    (hk : jsParseFloat (row.getD kw Cell.empty) = some k) (hle : k ≤ 1 / 1000) :
    parseRow ts kw row = none := by
  simp only [parseRow]
  split
  · rfl
  · split
    · rfl
    · rw [hk]
      simp only [if_pos hle]

/-- C8: every observation retained by the normalizer has usage strictly
greater than 0.001, and a data row whose parsed usage is at most 0.001 is
excluded from the series — inserting it anywhere between the other rows
leaves the collected record list (hence every aggregate, tariff charge and
billing-day count computed from it) unchanged. -/
theorem zero_usage_rows_filtered (tsIdx kwhIdx : ℕ) :
    (∀ rows : List Row, ∀ r ∈ buildRecords tsIdx kwhIdx rows, 1 / 1000 < r.kwh) ∧
    (∀ (pre post : List Row) (row : Row) (k : ℚ),
      jsParseFloat (row.getD kwhIdx Cell.empty) = some k → k ≤ 1 / 1000 →
      buildRecords tsIdx kwhIdx (pre ++ row :: post) =
        buildRecords tsIdx kwhIdx (pre ++ post)) := by
  constructor
  · intro rows r hr
    rcases List.mem_filterMap.mp hr with ⟨row, _, hparse⟩
    exact parseRow_kwh_gt hparse
  · intro pre post row k hk hle
    simp [buildRecords, List.filterMap_append, List.filterMap_cons,
      parseRow_low_usage_none hk hle]

/-- The sample good row parses to a valid observation of 2 kWh at
2025-02-19 23:00 (instant 29000100 in minutes). -/
theorem parseRow_goodRow :
    parseRow 0 1 goodRow = some ⟨JSDate.valid 29000100, 2⟩ := by
  have hpd : parseDate "2025-02-19 23:00" = some (JSDate.valid 29000100) := by
    decide
  simp only [goodRow, parseRow, List.getD, List.get?, Option.getD]
  norm_num [hpd, jsParseFloat]
  intro h
  simp at h

/-- Witness for `zero_usage_rows_filtered`: the retained record of the good
row has usage above 0.001, and appending the 0.0005 kWh row leaves the
collected records unchanged. -/
theorem zero_usage_rows_filtered_witness :
    (1 / 1000 : ℚ) < 2 ∧
    buildRecords 0 1 [goodRow, nearZeroRow] = buildRecords 0 1 [goodRow] := by
  constructor
  · have hmem : (⟨JSDate.valid 29000100, 2⟩ : RawRec) ∈ buildRecords 0 1 [goodRow] := by
      simp [buildRecords, List.filterMap_cons, parseRow_goodRow]
    simpa using (zero_usage_rows_filtered 0 1).1 [goodRow] _ hmem
  · exact (zero_usage_rows_filtered 0 1).2 [goodRow] [] nearZeroRow (5 / 10000)
      (by rfl) (by norm_num)

/-- C7: for every non-empty parsed series, the normalizer computes the span
in days between first and last timestamp after sorting and fails with
`InsufficientDataError` carrying exactly that day count if and only if the
span is strictly below 30 days; on that failure no results are produced, and
when the span is at least 30 days the run is not rejected. -/
theorem insufficient_span_check (records : List Rec) (hne : records ≠ []) :
    (∀ d : ℚ,
      processRecords records = Except.error (PipelineError.insufficientData d) ↔
      (d = spanDays (sortRecords records) ∧ spanDays (sortRecords records) < 30)) ∧
    (spanDays (sortRecords records) < 30 →
      ∀ out, processRecords records ≠ Except.ok out) ∧
    (30 ≤ spanDays (sortRecords records) →
      ∀ e, processRecords records ≠ Except.error e) := by
  have h0 : records.isEmpty = false := by simpa using hne
  by_cases hlt : spanDays (sortRecords records) < 30
  · refine ⟨fun d => ?_, fun _ out => ?_, fun hge => absurd hlt (not_lt.mpr hge)⟩
    · simp [processRecords, h0, hlt, eq_comm]
    · simp [processRecords, h0, hlt]
  · refine ⟨fun d => ?_, fun hl => absurd hl hlt, fun _ e => ?_⟩
    · simp [processRecords, h0, hlt]
    · simp [processRecords, h0, hlt]

/-- Witness for `insufficient_span_check`: the 3-day sample series is
rejected with `InsufficientDataError` carrying the day count 3. -/
theorem insufficient_span_check_witness :
    processRecords shortSample =
      Except.error (PipelineError.insufficientData 3) := by
  have hs : sortRecords shortSample = shortSample := by decide
  have hspan : spanDays shortSample = 3 := by
    simp [spanDays, shortSample]
    norm_num
  exact ((insufficient_span_check shortSample (by decide)).1 3).mpr
    ⟨by rw [hs, hspan], by rw [hs, hspan]; norm_num⟩

/-- C4: when the sorted span is at least 365 days the normalizer retains
exactly the observations at or after the cutoff instant (last timestamp
minus `⌊span/365⌋ × 365` days) and discards all earlier ones; below 365 days
everything is kept; and on the concrete 400-day sample ending
2025-01-01 00:00 exactly the observations of the most recent 365 days
survive. -/
theorem truncation_window (sorted : List Rec) (d : ℚ) :
    (365 ≤ d → ∀ r : Rec, (r ∈ truncateRecords sorted d ↔
      r ∈ sorted ∧
        (sorted.getLast?.getD ⟨0, 0⟩).dt - ⌊d / 365⌋ * 365 * 1440 ≤ r.dt)) ∧
    (d < 365 → truncateRecords sorted d = sorted) ∧
    (spanDays (sortRecords truncSample) = 400 ∧
      truncateRecords (sortRecords truncSample) 400 =
        [⟨sampleEnd - 365 * 1440, 1⟩, ⟨sampleEnd - 100 * 1440, 1⟩,
         ⟨sampleEnd, 1⟩]) := by
  have hs : sortRecords truncSample = truncSample := by decide
  refine ⟨fun h365 r => ?_, fun hlt => ?_, ?_, ?_⟩
  · simp [truncateRecords, if_pos h365, List.mem_filter]
  · simp [truncateRecords, not_le.mpr hlt]
  · rw [hs]
    have h : truncSample =
        [⟨28352160, 1⟩, ⟨28401120, 1⟩, ⟨28402560, 1⟩, ⟨28784160, 1⟩,
         ⟨28928160, 1⟩] := by decide
    rw [h]
    simp [spanDays]
    norm_num
  · rw [hs]
    have hfloor : ⌊(400 : ℚ) / 365⌋ = 1 := by norm_num
    simp only [truncateRecords, if_pos (by norm_num : (365 : ℚ) ≤ 400), hfloor]
    decide

/-- Witness for `truncation_window`: the membership characterization at span
400 instantiated at the final observation, and the identity truncation at a
(hypothetical) 100-day span. -/
theorem truncation_window_witness :
    ((365 : ℚ) ≤ 400 ∧
      ((⟨sampleEnd, 1⟩ : Rec) ∈ truncateRecords (sortRecords truncSample) 400 ↔
        (⟨sampleEnd, 1⟩ : Rec) ∈ sortRecords truncSample ∧
          ((sortRecords truncSample).getLast?.getD ⟨0, 0⟩).dt -
            ⌊(400 : ℚ) / 365⌋ * 365 * 1440 ≤ sampleEnd)) ∧
    ((100 : ℚ) < 365 ∧
      truncateRecords (sortRecords truncSample) 100 = sortRecords truncSample) := by
  constructor
  · exact ⟨by norm_num,
      (truncation_window (sortRecords truncSample) 400).1 (by norm_num)
        ⟨sampleEnd, 1⟩⟩
  · exact ⟨by norm_num,
      (truncation_window (sortRecords truncSample) 100).2.1 (by norm_num)⟩

/-- `aggStep` updates the `monthlyUsage` map at the observation's month key
and day key. -/
theorem aggStep_monthly (a : Aggregates) (r : Rec) :
    (aggStep a r).monthly =
      bumpMonth a.monthly (monthKeyOf r) (dayKeyOf r) r.kwh := rfl

/-- Projection of the aggregate fold to the `monthlyUsage` component. -/
theorem foldl_aggStep_monthly (l : List Rec) (a : Aggregates) :
    (l.foldl aggStep a).monthly =
      l.foldl (fun m r => bumpMonth m (monthKeyOf r) (dayKeyOf r) r.kwh)
        a.monthly := by
  induction l generalizing a with
  | nil => rfl
  | cons r l ih => rw [List.foldl_cons, List.foldl_cons, ih, aggStep_monthly]

/-- Updating an absent month key appends a fresh bucket. -/
theorem bumpMonth_absent (key : ℤ × ℤ) (dk : ℤ × ℤ × ℤ) (kwh : ℚ) :
    ∀ m : List ((ℤ × ℤ) × MonthAgg), key ∉ m.map Prod.fst →
      bumpMonth m key dk kwh = m ++ [(key, addObs emptyMonthAgg dk kwh)] := by
  intro m
  induction m with
  | nil => intro _; rfl
  | cons p rest ih =>
    intro h
    simp only [List.map_cons, List.mem_cons, not_or] at h
    obtain ⟨k, b⟩ := p
    rw [bumpMonth, if_neg (fun e : k = key => h.1 e.symm), ih h.2,
      List.cons_append]

/-- Updating the first occurrence of a present month key rewrites that
bucket in place. -/
theorem bumpMonth_present (key : ℤ × ℤ) (dk : ℤ × ℤ × ℤ) (kwh : ℚ) :
    ∀ (m1 : List ((ℤ × ℤ) × MonthAgg)) (b : MonthAgg)
      (m2 : List ((ℤ × ℤ) × MonthAgg)), key ∉ m1.map Prod.fst →
      bumpMonth (m1 ++ (key, b) :: m2) key dk kwh =
        m1 ++ (key, addObs b dk kwh) :: m2 := by
  intro m1
  induction m1 with
  | nil => intro b m2 _; simp [bumpMonth]
  | cons p rest ih =>
    intro b m2 h
    simp only [List.map_cons, List.mem_cons, not_or] at h
    obtain ⟨k, b1⟩ := p
    rw [List.cons_append, bumpMonth, if_neg (fun e : k = key => h.1 e.symm),
      ih b m2 h.2, List.cons_append]

/-- The empty state satisfies the billing-days invariant. -/
theorem daysInv_nil : DaysInv [] [] := by
  refine ⟨rfl, ?_, by simp, by simp⟩
  intro y mo d
  simp

/-- One observation preserves the billing-days invariant: inserting the
whole-series day key `(y, mo, d)` (0-based month) into `allDays` and folding
the same observation into the bucket of month key `(y, mo+1)` keep the two
structures in correspondence. -/
theorem daysInv_step {s : List (ℤ × ℤ × ℤ)} {m : List ((ℤ × ℤ) × MonthAgg)}
    (h : DaysInv s m) (y mo d : ℤ) (kwh : ℚ) :
    DaysInv (setInsert (y, mo, d) s)
      (bumpMonth m (y, mo + 1) (y, mo + 1, d) kwh) := by
  obtain ⟨hlen, hmem, hnodup, hwf⟩ := h
  by_cases hkey : (y, mo + 1) ∈ m.map Prod.fst
  · obtain ⟨p, hp, hpk⟩ := List.mem_map.mp hkey
    obtain ⟨m1, m2, rfl⟩ := List.append_of_mem hp
    obtain ⟨k, b⟩ := p
    obtain rfl : k = (y, mo + 1) := hpk
    have hkeys := hnodup
    rw [List.map_append, List.map_cons, List.nodup_append] at hkeys
    obtain ⟨hn1, hn2, hdisj⟩ := hkeys
    have hnotm1 : (y, mo + 1) ∉ m1.map Prod.fst :=
      fun hin => hdisj hin (List.mem_cons_self _ _)
    have hnotm2 : (y, mo + 1) ∉ m2.map Prod.fst := (List.nodup_cons.mp hn2).1
    have huniq : ∀ b2 : MonthAgg,
        ((y, mo + 1), b2) ∈ m1 ++ ((y, mo + 1), b) :: m2 → b2 = b := by
      intro b2 hb2
      rcases List.mem_append.mp hb2 with h1 | h2
      · exact absurd (List.mem_map_of_mem Prod.fst h1) hnotm1
      · rcases List.mem_cons.mp h2 with h3 | h4
        · simp only [Prod.mk.injEq] at h3
          exact h3.2
        · exact absurd (List.mem_map_of_mem Prod.fst h4) hnotm2
    rw [bumpMonth_present _ _ _ m1 b m2 hnotm1]
    by_cases hds : (y, mo, d) ∈ s
    · -- day already seen: both structures keep their day sets
      have hdkb : (y, mo + 1, d) ∈ b.days := by
        obtain ⟨b2, hb2, hdk⟩ := (hmem y mo d).mp hds
        rwa [huniq b2 hb2] at hdk
      have hsetd : setInsert (y, mo, d) s = s := by simp [setInsert, hds]
      have hdays : (addObs b (y, mo + 1, d) kwh).days = b.days := by
        simp [addObs, setInsert, hdkb]
      rw [hsetd]
      refine ⟨?_, ?_, ?_, ?_⟩
      · simp only [List.map_append, List.map_cons, List.sum_append,
          List.sum_cons, hdays] at hlen ⊢
        exact hlen
      · intro y2 mo2 d2
        rw [hmem y2 mo2 d2]
        constructor
        · rintro ⟨b3, hb3, hd3⟩
          rcases List.mem_append.mp hb3 with h1 | h2
          · exact ⟨b3, List.mem_append_left _ h1, hd3⟩
          · rcases List.mem_cons.mp h2 with h3 | h4
            · simp only [Prod.mk.injEq] at h3
              obtain ⟨⟨hy, hmoe⟩, hb3e⟩ := h3
              have hmo2 : mo2 = mo := by omega
              rw [hb3e] at hd3
              rw [hy, hmo2] at hd3 ⊢
              exact ⟨addObs b (y, mo + 1, d) kwh,
                List.mem_append_right _ (List.mem_cons_self _ _),
                by rwa [hdays]⟩
            · exact ⟨b3,
                List.mem_append_right _ (List.mem_cons_of_mem _ h4), hd3⟩
        · rintro ⟨b3, hb3, hd3⟩
          rcases List.mem_append.mp hb3 with h1 | h2
          · exact ⟨b3, List.mem_append_left _ h1, hd3⟩
          · rcases List.mem_cons.mp h2 with h3 | h4
            · simp only [Prod.mk.injEq] at h3
              obtain ⟨⟨hy, hmoe⟩, hb3e⟩ := h3
              have hmo2 : mo2 = mo := by omega
              rw [hb3e, hdays] at hd3
              rw [hy, hmo2] at hd3 ⊢
              exact ⟨b,
                List.mem_append_right _ (List.mem_cons_self _ _), hd3⟩
            · exact ⟨b3,
                List.mem_append_right _ (List.mem_cons_of_mem _ h4), hd3⟩
      · simpa using hnodup
      · intro p hp2 dk hdk
        rcases List.mem_append.mp hp2 with h1 | h2
        · exact hwf p (List.mem_append_left _ h1) dk hdk
        · rcases List.mem_cons.mp h2 with h3 | h4
          · subst h3
            rw [hdays] at hdk
            exact hwf ((y, mo + 1), b)
              (List.mem_append_right _ (List.mem_cons_self _ _)) dk hdk
          · exact hwf p
              (List.mem_append_right _ (List.mem_cons_of_mem _ h4)) dk hdk
    · -- new day in an existing month bucket
      have hdknb : (y, mo + 1, d) ∉ b.days := by
        intro hin
        exact hds ((hmem y mo d).mpr
          ⟨b, List.mem_append_right _ (List.mem_cons_self _ _), hin⟩)
      have hsetd : setInsert (y, mo, d) s = s ++ [(y, mo, d)] := by
        simp [setInsert, hds]
      have hdays : (addObs b (y, mo + 1, d) kwh).days =
          b.days ++ [(y, mo + 1, d)] := by
        simp [addObs, setInsert, hdknb]
      rw [hsetd]
      refine ⟨?_, ?_, ?_, ?_⟩
      · simp only [List.map_append, List.map_cons, List.sum_append,
          List.sum_cons, hdays, List.length_append, List.length_cons,
          List.length_nil] at hlen ⊢
        omega
      · intro y2 mo2 d2
        constructor
        · intro hin
          rcases List.mem_append.mp hin with hold | hnew
          · obtain ⟨b3, hb3, hd3⟩ := (hmem y2 mo2 d2).mp hold
            rcases List.mem_append.mp hb3 with h1 | h2
            · exact ⟨b3, List.mem_append_left _ h1, hd3⟩
            · rcases List.mem_cons.mp h2 with h3 | h4
              · simp only [Prod.mk.injEq] at h3
                obtain ⟨⟨hy, hmoe⟩, hb3e⟩ := h3
                have hmo2 : mo2 = mo := by omega
                rw [hb3e] at hd3
                rw [hy, hmo2] at hd3 ⊢
                refine ⟨addObs b (y, mo + 1, d) kwh,
                  List.mem_append_right _ (List.mem_cons_self _ _), ?_⟩
                rw [hdays]
                exact List.mem_append_left _ hd3
              · exact ⟨b3,
                  List.mem_append_right _ (List.mem_cons_of_mem _ h4), hd3⟩
          · have he : (y2, mo2, d2) = (y, mo, d) := by simpa using hnew
            simp only [Prod.mk.injEq] at he
            obtain ⟨hy, hmo, hd2e⟩ := he
            rw [hy, hmo, hd2e]
            refine ⟨addObs b (y, mo + 1, d) kwh,
              List.mem_append_right _ (List.mem_cons_self _ _), ?_⟩
            rw [hdays]
            exact List.mem_append_right _ (List.mem_cons_self _ _)
        · rintro ⟨b3, hb3, hd3⟩
          rcases List.mem_append.mp hb3 with h1 | h2
          · exact List.mem_append_left _
              ((hmem y2 mo2 d2).mpr ⟨b3, List.mem_append_left _ h1, hd3⟩)
          · rcases List.mem_cons.mp h2 with h3 | h4
            · simp only [Prod.mk.injEq] at h3
              obtain ⟨⟨hy, hmoe⟩, hb3e⟩ := h3
              have hmo2 : mo2 = mo := by omega
              rw [hb3e, hdays] at hd3
              rw [hy, hmo2] at hd3 ⊢
              rcases List.mem_append.mp hd3 with h5 | h6
              · exact List.mem_append_left _ ((hmem y mo d2).mpr
                  ⟨b, List.mem_append_right _ (List.mem_cons_self _ _), h5⟩)
              · have he : d2 = d := by simpa using h6
                rw [he]
                exact List.mem_append_right _ (List.mem_cons_self _ _)
            · exact List.mem_append_left _ ((hmem y2 mo2 d2).mpr
                ⟨b3, List.mem_append_right _ (List.mem_cons_of_mem _ h4), hd3⟩)
      · simpa using hnodup
      · intro p hp2 dk hdk
        rcases List.mem_append.mp hp2 with h1 | h2
        · exact hwf p (List.mem_append_left _ h1) dk hdk
        · rcases List.mem_cons.mp h2 with h3 | h4
          · subst h3
            rw [hdays] at hdk
            rcases List.mem_append.mp hdk with h5 | h6
            · exact hwf ((y, mo + 1), b)
                (List.mem_append_right _ (List.mem_cons_self _ _)) dk h5
            · have : dk = (y, mo + 1, d) := by simpa using h6
              subst this
              exact ⟨rfl, rfl⟩
          · exact hwf p
              (List.mem_append_right _ (List.mem_cons_of_mem _ h4)) dk hdk
  · -- fresh month key: both structures grow by one entry
    have hds : (y, mo, d) ∉ s := by
      intro hin
      obtain ⟨b2, hb2, _⟩ := (hmem y mo d).mp hin
      exact hkey (List.mem_map_of_mem Prod.fst hb2)
    have hsetd : setInsert (y, mo, d) s = s ++ [(y, mo, d)] := by
      simp [setInsert, hds]
    have hnew : (addObs emptyMonthAgg (y, mo + 1, d) kwh).days =
        [(y, mo + 1, d)] := by
      simp [addObs, emptyMonthAgg, setInsert]
    rw [bumpMonth_absent _ _ _ m hkey, hsetd]
    refine ⟨?_, ?_, ?_, ?_⟩
    · simp only [List.map_append, List.map_cons, List.map_nil,
        List.sum_append, List.sum_cons, List.sum_nil, hnew,
        List.length_append, List.length_cons, List.length_nil] at hlen ⊢
      omega
    · intro y2 mo2 d2
      constructor
      · intro hin
        rcases List.mem_append.mp hin with hold | hnewd
        · obtain ⟨b3, hb3, hd3⟩ := (hmem y2 mo2 d2).mp hold
          exact ⟨b3, List.mem_append_left _ hb3, hd3⟩
        · have he : (y2, mo2, d2) = (y, mo, d) := by simpa using hnewd
          simp only [Prod.mk.injEq] at he
          obtain ⟨hy, hmo, hd2e⟩ := he
          rw [hy, hmo, hd2e]
          refine ⟨addObs emptyMonthAgg (y, mo + 1, d) kwh,
            List.mem_append_right _ (List.mem_cons_self _ _), ?_⟩
          rw [hnew]
          exact List.mem_cons_self _ _
      · rintro ⟨b3, hb3, hd3⟩
        rcases List.mem_append.mp hb3 with h1 | h2
        · exact List.mem_append_left _
            ((hmem y2 mo2 d2).mpr ⟨b3, h1, hd3⟩)
        · have h3 : ((y2, mo2 + 1), b3) =
              ((y, mo + 1), addObs emptyMonthAgg (y, mo + 1, d) kwh) := by
            simpa using h2
          simp only [Prod.mk.injEq] at h3
          obtain ⟨⟨hy, hmoe⟩, hb3e⟩ := h3
          have hmo2 : mo2 = mo := by omega
          rw [hb3e, hnew] at hd3
          rw [hy, hmo2] at hd3 ⊢
          have he : d2 = d := by simpa using hd3
          rw [he]
          exact List.mem_append_right _ (List.mem_cons_self _ _)
    · simp only [List.map_append, List.map_cons, List.map_nil]
      rw [List.nodup_append]
      refine ⟨hnodup, by simp, ?_⟩
      intro a ha hb
      have : a = (y, mo + 1) := by simpa using hb
      subst this
      exact hkey ha
    · intro p hp2 dk hdk
      rcases List.mem_append.mp hp2 with h1 | h2
      · exact hwf p h1 dk hdk
      · have h3 : p = ((y, mo + 1), addObs emptyMonthAgg (y, mo + 1, d) kwh) := by
          simpa using h2
        subst h3
        rw [hnew] at hdk
        have : dk = (y, mo + 1, d) := by simpa using hdk
        subst this
        exact ⟨rfl, rfl⟩

/-- Folding a series of observations through both day-tracking structures
preserves the billing-days invariant. -/
theorem daysInv_fold (l : List Rec) :
    ∀ (s : List (ℤ × ℤ × ℤ)) (m : List ((ℤ × ℤ) × MonthAgg)), DaysInv s m →
    DaysInv (l.foldl (fun s r => setInsert (allDayKeyOf r) s) s)
      (l.foldl (fun m r => bumpMonth m (monthKeyOf r) (dayKeyOf r) r.kwh) m) := by
  induction l with
  | nil => exact fun s m h => h
  | cons r l ih =>
    intro s m h
    rw [List.foldl_cons, List.foldl_cons]
    exact ih _ _ (daysInv_step h (getFullYear r.dt) (getMonth r.dt)
      (getDate r.dt) r.kwh)

/-- The whole-series distinct-day count equals the sum over all month
buckets of that month's active-day count. -/
theorem billingDays_eq_sum_month_days (records : List Rec) :
    billingDays records =
      ((buildAggregates records).monthly.map
        (fun p => p.2.days.length)).sum := by
  have h := daysInv_fold records [] [] daysInv_nil
  have hall : allDaysList records =
      records.foldl (fun s r => setInsert (allDayKeyOf r) s) [] := rfl
  have hmon : (buildAggregates records).monthly =
      records.foldl
        (fun m r => bumpMonth m (monthKeyOf r) (dayKeyOf r) r.kwh) [] :=
    foldl_aggStep_monthly records initAggregates
  rw [billingDays, hall, hmon]
  exact h.1

/-- C10: the whole-series billing-day count equals the sum over all month
buckets of their active-day counts, so the reported R-30 fixed component
(daily rate × whole-series billing days) equals the sum of the per-month
fixed charges of the R-30 base total, and the reported R-30 energy component
equals the sum of the per-month tiered/flat energy charges. -/
theorem r30_breakdown_refines_monthly (records : List Rec) (d : ℚ)
    (note : String) :
    ((billingDays records : ℚ) =
      ((buildAggregates records).monthly.map
        (fun p => (p.2.days.length : ℚ))).sum) ∧
    (calculateCosts records d note).r30.fixed =
      ((buildAggregates records).monthly.map
        (fun p => 0.4603 * (p.2.days.length : ℚ))).sum ∧
    (calculateCosts records d note).r30.energy =
      ((buildAggregates records).monthly.map
        (fun p => r30EnergyCost p.1.2 p.2.total)).sum := by
  have hdays : ((billingDays records : ℚ)) =
      ((buildAggregates records).monthly.map
        (fun p => (p.2.days.length : ℚ))).sum := by
    rw [billingDays_eq_sum_month_days records, Nat.cast_list_sum,
      List.map_map]
    rfl
  have hfixed : ((buildAggregates records).monthly.map
      (fun p => 0.4603 * (p.2.days.length : ℚ))).sum =
      0.4603 * ((buildAggregates records).monthly.map
        (fun p => (p.2.days.length : ℚ))).sum :=
    List.sum_map_mul_left _ _ _
  have hsplit : ((buildAggregates records).monthly.map
      (fun p => 0.4603 * (p.2.days.length : ℚ) +
        r30EnergyCost p.1.2 p.2.total)).sum =
      ((buildAggregates records).monthly.map
        (fun p => 0.4603 * (p.2.days.length : ℚ))).sum +
      ((buildAggregates records).monthly.map
        (fun p => r30EnergyCost p.1.2 p.2.total)).sum :=
    List.sum_map_add
  refine ⟨hdays, ?_, ?_⟩
  · simp only [calculateCosts]
    rw [hfixed, hdays]
  · simp only [calculateCosts]
    rw [hsplit, hfixed, hdays]
    ring

/-- Folding observations with the same month and day keys and pointwise ≤
usage into two pointwise-related `monthlyUsage` maps keeps them related. -/
theorem monthRel_bumpMonth (key : ℤ × ℤ) (dk : ℤ × ℤ × ℤ) {w w2 : ℚ}
    (hw : w ≤ w2) :
    ∀ {m m2 : List ((ℤ × ℤ) × MonthAgg)}, List.Forall₂ MonthRel m m2 →
    List.Forall₂ MonthRel (bumpMonth m key dk w) (bumpMonth m2 key dk w2) := by
  intro m m2 h
  induction h with
  | nil =>
    refine List.Forall₂.cons ⟨rfl, rfl, ?_, ?_⟩ List.Forall₂.nil
    · simpa [addObs, emptyMonthAgg] using hw
    · simp only [addObs, emptyMonthAgg]
      split_ifs <;> linarith
  | cons hpq hrest ih =>
    rename_i p q l1 l2
    obtain ⟨k1, b1⟩ := p
    obtain ⟨k2, b2⟩ := q
    obtain ⟨hk, hdays, htot, hmax⟩ := hpq
    simp only at hk hdays htot hmax
    subst hk
    rw [bumpMonth, bumpMonth]
    by_cases hkey : k1 = key
    · rw [if_pos hkey, if_pos hkey]
      refine List.Forall₂.cons ⟨rfl, ?_, ?_, ?_⟩ hrest
      · simp [addObs, hdays]
      · simp only [addObs]
        linarith
      · simp only [addObs]
        split_ifs <;> linarith
    · rw [if_neg hkey, if_neg hkey]
      exact List.Forall₂.cons ⟨rfl, hdays, htot, hmax⟩ ih

/-- The aggregate relation is reflexive. -/
theorem aggRel_refl (a : Aggregates) : AggRel a a :=
  ⟨le_refl _, le_refl _, le_refl _, le_refl _, le_refl _, le_refl _,
    List.forall₂_same.mpr fun _ _ => ⟨rfl, rfl, le_refl _, le_refl _⟩⟩

/-- One step of the main loop preserves the aggregate relation when the two
observations share a timestamp and are ≤-related on usage. -/
theorem aggRel_step {a a2 : Aggregates} (h : AggRel a a2) {r r2 : Rec}
    (hdt : r.dt = r2.dt) (hk : r.kwh ≤ r2.kwh) :
    AggRel (aggStep a r) (aggStep a2 r2) := by
  obtain ⟨t, k⟩ := r
  obtain ⟨t2, k2⟩ := r2
  simp only at hdt hk
  subst hdt
  obtain ⟨h1, h2, h3, h4, h5, h6, h7⟩ := h
  refine ⟨?_, ?_, ?_, ?_, ?_, ?_, ?_⟩ <;> simp only [aggStep]
  · split_ifs <;> linarith
  · split_ifs <;> linarith
  · split_ifs <;> linarith
  · split_ifs <;> linarith
  · split_ifs <;> linarith
  · split_ifs
    · have hm := mul_le_mul_of_nonneg_right hk
        (show (0 : ℚ) ≤ FCR_SUMMER by norm_num [FCR_SUMMER])
      linarith
    · have hm := mul_le_mul_of_nonneg_right hk
        (show (0 : ℚ) ≤ FCR_WINTER by norm_num [FCR_WINTER])
      linarith
  · exact monthRel_bumpMonth _ _ hk h7

/-- The aggregate relation is preserved by folding two series that agree on
timestamps and are pointwise ≤ on usage. -/
theorem aggRel_foldl :
    ∀ {l l2 : List Rec},
      List.Forall₂ (fun r r2 : Rec => r.dt = r2.dt ∧ r.kwh ≤ r2.kwh) l l2 →
      ∀ {a a2 : Aggregates}, AggRel a a2 →
      AggRel (l.foldl aggStep a) (l2.foldl aggStep a2) := by
  intro l l2 h
  induction h with
  | nil => exact fun h => h
  | cons hpq hrest ih =>
    intro a a2 ha
    rw [List.foldl_cons, List.foldl_cons]
    exact ih (aggRel_step ha hpq.1 hpq.2)

/-- The whole-series day set depends only on the timestamps. -/
theorem allDaysList_congr :
    ∀ {l l2 : List Rec}, List.Forall₂ (fun r r2 : Rec => r.dt = r2.dt) l l2 →
    ∀ s : List (ℤ × ℤ × ℤ),
      l.foldl
        (fun s r => setInsert (getFullYear r.dt, getMonth r.dt, getDate r.dt) s)
        s =
      l2.foldl
        (fun s r => setInsert (getFullYear r.dt, getMonth r.dt, getDate r.dt) s)
        s := by
  intro l l2 h
  induction h with
  | nil => exact fun _ => rfl
  | cons hpq hrest ih =>
    intro s
    rw [List.foldl_cons, List.foldl_cons, hpq]
    exact ih _

/-- The monthly demand-charge sum is monotone under the month relation. -/
theorem demand_sum_mono :
    ∀ {m m2 : List ((ℤ × ℤ) × MonthAgg)}, List.Forall₂ MonthRel m m2 →
    (m.map (fun p => p.2.maxDemand * (12.21 : ℚ))).sum ≤
      (m2.map (fun p => p.2.maxDemand * (12.21 : ℚ))).sum := by
  intro m m2 h
  induction h with
  | nil => exact le_refl _
  | cons hpq hrest ih =>
    simp only [List.map_cons, List.sum_cons]
    have := mul_le_mul_of_nonneg_right hpq.2.2.2
      (show (0 : ℚ) ≤ 12.21 by norm_num)
    linarith

/-- The R-30 summer/winter energy charge is monotone in monthly usage. -/
theorem r30EnergyCost_mono (mo : ℤ) {u u2 : ℚ} (h : u ≤ u2) :
    r30EnergyCost mo u ≤ r30EnergyCost mo u2 := by
  by_cases hs : 6 ≤ mo ∧ mo ≤ 9
  · simp only [r30EnergyCost]
    rw [if_pos hs, if_pos hs]
    have h1 : min u 650 ≤ min u2 650 := min_le_min h (le_refl _)
    have h2 : (if 650 < u then min (u - 650) 350 else 0) ≤
        (if 650 < u2 then min (u2 - 650) 350 else 0) := by
      split_ifs with a b
      · exact min_le_min (by linarith) (le_refl _)
      · linarith
      · exact le_min (by linarith) (by norm_num)
      · exact le_refl _
    have h3 : (if 1000 < u then u - 1000 else 0) ≤
        (if 1000 < u2 then u2 - 1000 else 0) := by
      split_ifs <;> linarith
    have e1 := mul_le_mul_of_nonneg_right h1
      (show (0 : ℚ) ≤ 0.086121 by norm_num)
    have e2 := mul_le_mul_of_nonneg_right h2
      (show (0 : ℚ) ≤ 0.143047 by norm_num)
    have e3 := mul_le_mul_of_nonneg_right h3
      (show (0 : ℚ) ≤ 0.148051 by norm_num)
    linarith
  · simp only [r30EnergyCost]
    rw [if_neg hs, if_neg hs]
    exact mul_le_mul_of_nonneg_right h (by norm_num)

/-- The R-30 base total (per-month fixed plus energy) is monotone under the
month relation. -/
theorem r30_base_mono {m m2 : List ((ℤ × ℤ) × MonthAgg)}
    (h : List.Forall₂ MonthRel m m2) :
    (m.map
      (fun p => 0.4603 * (p.2.days.length : ℚ) +
        r30EnergyCost p.1.2 p.2.total)).sum ≤
    (m2.map
      (fun p => 0.4603 * (p.2.days.length : ℚ) +
        r30EnergyCost p.1.2 p.2.total)).sum := by
  apply List.Forall₂.sum_le_sum
  rw [List.forall₂_map_left_iff, List.forall₂_map_right_iff]
  refine h.imp ?_
  intro p q hpq
  obtain ⟨hk, hdays, htot, hmax⟩ := hpq
  have hlen : (p.2.days.length : ℚ) = (q.2.days.length : ℚ) := by rw [hdays]
  have hkey : p.1.2 = q.1.2 := by rw [hk]
  have hmono := r30EnergyCost_mono q.1.2 htot
  rw [hkey, hlen]
  linarith

/-- C3: increasing one observation's usage while holding its timestamp (and
all other observations) fixed never decreases any of the four tariff totals
computed by the costing engine. -/
theorem usage_monotonicity (pre post : List Rec) (t : DateMin) (k k2 : ℚ)
    (hk : k ≤ k2) (d : ℚ) (note : String) :
    (calculateCosts (pre ++ ⟨t, k⟩ :: post) d note).tou_reo.total ≤
      (calculateCosts (pre ++ ⟨t, k2⟩ :: post) d note).tou_reo.total ∧
    (calculateCosts (pre ++ ⟨t, k⟩ :: post) d note).tou_oa.total ≤
      (calculateCosts (pre ++ ⟨t, k2⟩ :: post) d note).tou_oa.total ∧
    (calculateCosts (pre ++ ⟨t, k⟩ :: post) d note).tou_rd.total ≤
      (calculateCosts (pre ++ ⟨t, k2⟩ :: post) d note).tou_rd.total ∧
    (calculateCosts (pre ++ ⟨t, k⟩ :: post) d note).r30.total ≤
      (calculateCosts (pre ++ ⟨t, k2⟩ :: post) d note).r30.total := by
  have hf : List.Forall₂ (fun r r2 : Rec => r.dt = r2.dt ∧ r.kwh ≤ r2.kwh)
      (pre ++ ⟨t, k⟩ :: post) (pre ++ ⟨t, k2⟩ :: post) :=
    List.rel_append
      (List.forall₂_same.mpr fun r _ => ⟨rfl, le_refl _⟩)
      (List.Forall₂.cons ⟨rfl, hk⟩
        (List.forall₂_same.mpr fun r _ => ⟨rfl, le_refl _⟩))
  have hagg : AggRel (buildAggregates (pre ++ ⟨t, k⟩ :: post))
      (buildAggregates (pre ++ ⟨t, k2⟩ :: post)) :=
    aggRel_foldl hf (aggRel_refl initAggregates)
  obtain ⟨h1, h2, h3, h4, h5, h6, h7⟩ := hagg
  have hbd : ((billingDays (pre ++ ⟨t, k⟩ :: post) : ℚ)) =
      ((billingDays (pre ++ ⟨t, k2⟩ :: post) : ℚ)) := by
    unfold billingDays allDaysList
    rw [allDaysList_congr (hf.imp fun a b hab => hab.1) []]
  have hdem := demand_sum_mono h7
  have hbase := r30_base_mono h7
  have htax : (0 : ℚ) ≤ TAX_RATE := by norm_num [TAX_RATE]
  refine ⟨?_, ?_, ?_, ?_⟩ <;> simp only [calculateCosts] <;>
    refine mul_le_mul_of_nonneg_right ?_ htax
  · rw [hbd]
    have e1 := mul_le_mul_of_nonneg_right h1
      (show (0 : ℚ) ≤ 0.297868 by norm_num)
    have e2 := mul_le_mul_of_nonneg_right h2
      (show (0 : ℚ) ≤ 0.076281 by norm_num)
    linarith
  · rw [hbd]
    have e1 := mul_le_mul_of_nonneg_right h3
      (show (0 : ℚ) ≤ 0.297868 by norm_num)
    have e2 := mul_le_mul_of_nonneg_right h4
      (show (0 : ℚ) ≤ 0.101676 by norm_num)
    have e3 := mul_le_mul_of_nonneg_right h5
      (show (0 : ℚ) ≤ 0.021859 by norm_num)
    linarith
  · rw [hbd]
    have e1 := mul_le_mul_of_nonneg_right h1
      (show (0 : ℚ) ≤ 0.142986 by norm_num)
    have e2 := mul_le_mul_of_nonneg_right h2
      (show (0 : ℚ) ≤ 0.015288 by norm_num)
    linarith
  · linarith

/-- Witness for `usage_monotonicity`: raising the single observation's usage
from 1 to 2 kWh does not decrease the R-30 total. -/
theorem usage_monotonicity_witness :
    (1 : ℚ) ≤ 2 ∧
    (calculateCosts [⟨0, 1⟩] 5 "n").r30.total ≤
      (calculateCosts [⟨0, 2⟩] 5 "n").r30.total :=
  ⟨by norm_num, (usage_monotonicity [] [] 0 1 2 (by norm_num) 5 "n").2.2.2⟩

/-- The head of the stable ascending sort of the four plans is the
first-listed plan of minimal total. -/
theorem insertionSort_head (reo oa rd r30 : ℚ) :
    (List.insertionSort (fun a b => a.2 ≤ b.2)
      [("tou-reo", reo), ("tou-oa", oa), ("tou-rd", rd),
       ("r30", r30)]).headI = firstListedMin reo oa rd r30 := by
  unfold firstListedMin
  split_ifs with c1 c2 c3
  · rw [List.insertionSort_cons]
    · rfl
    · intro b hb
      simp only [List.mem_cons, List.not_mem_nil, or_false] at hb
      rcases hb with rfl | rfl | rfl
      · exact c1.1
      · exact c1.2.1
      · exact c1.2.2
  · have hoa : ¬((("tou-reo", reo) : String × ℚ).2 ≤ (("tou-oa", oa) : String × ℚ).2) := by
      intro hro
      exact c1 ⟨hro, le_trans hro c2.1, le_trans hro c2.2⟩
    rw [List.insertionSort, List.insertionSort_cons, List.orderedInsert,
      if_neg hoa]
    · rfl
    · intro b hb
      simp only [List.mem_cons, List.not_mem_nil, or_false] at hb
      rcases hb with rfl | rfl
      · exact c2.1
      · exact c2.2
  · have hrdoa : ¬(oa ≤ rd) := fun h => c2 ⟨h, le_trans h c3⟩
    have hrdreo : ¬(reo ≤ rd) := fun h =>
      c1 ⟨le_trans h (le_of_lt (not_le.mp hrdoa)), h, le_trans h c3⟩
    simp only [List.insertionSort, List.orderedInsert, if_pos c3,
      if_neg hrdoa, if_neg hrdreo, List.headI]
  · have h30rd : r30 < rd := not_le.mp c3
    have h30oa : ¬(oa ≤ r30) := fun h => c2 ⟨le_trans h (le_of_lt h30rd), h⟩
    have h30reo : ¬(reo ≤ r30) := fun h =>
      c1 ⟨le_trans h (le_of_lt (not_le.mp h30oa)),
        le_trans h (le_of_lt h30rd), h⟩
    simp only [List.insertionSort, List.orderedInsert, if_neg c3,
      if_neg h30oa, if_neg h30reo, List.headI]

/-- Looking up the standard plan in the sorted list recovers the R-30
total. -/
theorem sorted_find_r30 (reo oa rd r30 : ℚ) :
    (((List.insertionSort (fun a b => a.2 ≤ b.2)
        [("tou-reo", reo), ("tou-oa", oa), ("tou-rd", rd),
         ("r30", r30)]).find? (fun p => p.1 = "r30")).map Prod.snd).getD 0 =
      r30 := by
  have hperm := List.perm_insertionSort (fun a b : String × ℚ => a.2 ≤ b.2)
    [("tou-reo", reo), ("tou-oa", oa), ("tou-rd", rd), ("r30", r30)]
  have hmem : (("r30", r30) : String × ℚ) ∈
      List.insertionSort (fun a b => a.2 ≤ b.2)
        [("tou-reo", reo), ("tou-oa", oa), ("tou-rd", rd), ("r30", r30)] :=
    hperm.mem_iff.mpr (by simp)
  rcases hq : (List.insertionSort (fun a b => a.2 ≤ b.2)
      [("tou-reo", reo), ("tou-oa", oa), ("tou-rd", rd),
       ("r30", r30)]).find? (fun p => p.1 = "r30") with _ | q
  · have := List.find?_eq_none.mp hq _ hmem
    simp at this
  · have hqmem := List.mem_of_find?_eq_some hq
    have hqp : q.1 = "r30" := by simpa using List.find?_some hq
    have hqpl := hperm.mem_iff.mp hqmem
    simp only [List.mem_cons, List.not_mem_nil, or_false] at hqpl
    rcases hqpl with rfl | rfl | rfl | rfl
    · simp at hqp
    · simp at hqp
    · simp at hqp
    · rw [hq]
      rfl

/-- The first-listed minimum is a lower bound of all four totals. -/
theorem firstListedMin_le (reo oa rd r30 : ℚ) :
    (firstListedMin reo oa rd r30).2 ≤ reo ∧
    (firstListedMin reo oa rd r30).2 ≤ oa ∧
    (firstListedMin reo oa rd r30).2 ≤ rd ∧
    (firstListedMin reo oa rd r30).2 ≤ r30 := by
  unfold firstListedMin
  split_ifs with c1 c2 c3
  · exact ⟨le_refl _, c1.1, c1.2.1, c1.2.2⟩
  · have hoa : oa ≤ reo := by
      by_contra h
      push_neg at h
      exact c1 ⟨le_of_lt h, le_trans (le_of_lt h) c2.1,
        le_trans (le_of_lt h) c2.2⟩
    exact ⟨hoa, le_refl _, c2.1, c2.2⟩
  · have hrdoa : rd ≤ oa := by
      by_contra h
      push_neg at h
      exact c2 ⟨le_of_lt h, le_trans (le_of_lt h) c3⟩
    have hrdreo : rd ≤ reo := by
      by_contra h
      push_neg at h
      exact c1 ⟨le_trans (le_of_lt h) hrdoa, le_of_lt h,
        le_trans (le_of_lt h) c3⟩
    exact ⟨hrdreo, hrdoa, le_refl _, c3⟩
  · have h30rd : r30 ≤ rd := le_of_lt (not_le.mp c3)
    have h30oa : r30 ≤ oa := by
      by_contra h
      push_neg at h
      exact c2 ⟨le_trans (le_of_lt h) h30rd, le_of_lt h⟩
    have h30reo : r30 ≤ reo := by
      by_contra h
      push_neg at h
      exact c1 ⟨le_trans (le_of_lt h) h30oa, le_trans (le_of_lt h) h30rd,
        le_of_lt h⟩
    exact ⟨h30reo, h30oa, h30rd, le_refl _⟩

/-- The first-listed minimum takes one of the four totals as its value. -/
theorem firstListedMin_cases (reo oa rd r30 : ℚ) :
    (firstListedMin reo oa rd r30).2 = reo ∨
    (firstListedMin reo oa rd r30).2 = oa ∨
    (firstListedMin reo oa rd r30).2 = rd ∨
    (firstListedMin reo oa rd r30).2 = r30 := by
  unfold firstListedMin
  split_ifs <;> simp

/-- C9: the comparator recommends the plan of minimal total among the four
(the first-listed one on an exact tie, by the stable ascending sort), and
the reported savings equals the R-30 total minus the recommended total,
which is never negative and is zero whenever the R-30 plan is itself
cheapest. -/
theorem plan_recommendation (res : CostResults) :
    (displayResults res).1 =
      firstListedMin res.tou_reo.total res.tou_oa.total res.tou_rd.total
        res.r30.total ∧
    ((displayResults res).1.2 ≤ res.tou_reo.total ∧
     (displayResults res).1.2 ≤ res.tou_oa.total ∧
     (displayResults res).1.2 ≤ res.tou_rd.total ∧
     (displayResults res).1.2 ≤ res.r30.total) ∧
    (displayResults res).2 = res.r30.total - (displayResults res).1.2 ∧
    0 ≤ (displayResults res).2 ∧
    (res.r30.total ≤ res.tou_reo.total → res.r30.total ≤ res.tou_oa.total →
      res.r30.total ≤ res.tou_rd.total → (displayResults res).2 = 0) := by
  have hbest : (displayResults res).1 =
      firstListedMin res.tou_reo.total res.tou_oa.total res.tou_rd.total
        res.r30.total := by
    simp only [displayResults]
    exact insertionSort_head _ _ _ _
  have hsav : (displayResults res).2 =
      res.r30.total - (displayResults res).1.2 := by
    simp only [displayResults]
    rw [sorted_find_r30]
  have hle := firstListedMin_le res.tou_reo.total res.tou_oa.total
    res.tou_rd.total res.r30.total
  have hmins : (displayResults res).1.2 ≤ res.tou_reo.total ∧
      (displayResults res).1.2 ≤ res.tou_oa.total ∧
      (displayResults res).1.2 ≤ res.tou_rd.total ∧
      (displayResults res).1.2 ≤ res.r30.total := by
    rw [hbest]
    exact hle
  refine ⟨hbest, hmins, hsav, ?_, ?_⟩
  · rw [hsav]
    linarith [hmins.2.2.2]
  · intro hreo hoa hrd
    have hcases := firstListedMin_cases res.tou_reo.total res.tou_oa.total
      res.tou_rd.total res.r30.total
    rw [hsav, hbest]
    rw [hbest] at hmins
    rcases hcases with he | he | he | he <;> rw [he] <;>
      linarith [hmins.2.2.2]

/-- Witness for `plan_recommendation`: on a result object where the R-30
plan is the cheapest, the reported savings is zero. -/
theorem plan_recommendation_witness :
    sampleResults.r30.total ≤ sampleResults.tou_reo.total ∧
    (displayResults sampleResults).2 = 0 := by
  refine ⟨by norm_num [sampleResults], ?_⟩
  exact (plan_recommendation sampleResults).2.2.2.2
    (by norm_num [sampleResults]) (by norm_num [sampleResults])
    (by norm_num [sampleResults])

end GaPower
